import Mathlib

/-!
Verification development for the `usdt_alert_bot` repository.

The bot's numeric kernel works on numpy float arrays in which the EMA
warm-up region is filled with NaN.  We embed float values as `Option ℚ`:
`none` models NaN, `some q` a numeric value.  Arithmetic on NaN yields NaN
and every comparison involving NaN is false, exactly as in IEEE semantics
for the operations the bot performs.  External effects (HTTP retrieval,
Telegram delivery, the state file) are modelled as explicit inputs and
outputs of the orchestrator function `runMain`.
-/

namespace UsdtBot

/-- Comparison `a <= b` on NaN-aware values: false when either side is NaN. -/
def ole : Option ℚ → Option ℚ → Bool
  | some a, some b => a ≤ b
  | _, _ => false

/-- Comparison `a < b` on NaN-aware values: false when either side is NaN. -/
def olt : Option ℚ → Option ℚ → Bool
  | some a, some b => a < b
  | _, _ => false

/-- Comparison `a >= b` on NaN-aware values: false when either side is NaN. -/
def oge : Option ℚ → Option ℚ → Bool
  | some a, some b => a ≥ b
  | _, _ => false

/-- Comparison `a > b` on NaN-aware values: false when either side is NaN. -/
def ogt : Option ℚ → Option ℚ → Bool
  | some a, some b => a > b
  | _, _ => false

/-- Subtraction on NaN-aware values: NaN when either operand is NaN. -/
def osub : Option ℚ → Option ℚ → Option ℚ
  | some a, some b => some (a - b)
  | _, _ => none

/-- One step of the EMA recurrence `prev := alpha*x + (1-alpha)*prev`
(line 45 of the source); NaN-propagating. -/
def emaStep (alpha : ℚ) (prev x : Option ℚ) : Option ℚ :=
  match prev, x with
  | some p, some v => some (alpha * v + (1 - alpha) * p)
  | _, _ => none

/-- The loop `for i in range(length, len(arr))` of `ema` (lines 44-46):
starting from the seed, each element of the remaining input produces one
output entry holding the updated accumulator. -/
def emaRun (alpha : ℚ) (prev : Option ℚ) : List (Option ℚ) → List (Option ℚ)
  | [] => []
  | x :: xs => emaStep alpha prev x :: emaRun alpha (emaStep alpha prev x) xs

/-- Sum of NaN-aware values, NaN as soon as one term is NaN (as `np.sum`). -/
def osum : List (Option ℚ) → Option ℚ
  | [] => some 0
  | none :: _ => none
  | some a :: xs => (osum xs).map (fun s => a + s)

/-- Arithmetic mean of NaN-aware values (as `np.mean`). -/
def omean (l : List (Option ℚ)) : Option ℚ :=
  (osum l).map (fun s => s / (l.length : ℚ))

/-- `ema(arr, length)` from lines 33-47 of the source: identity for
`length <= 1`; all-NaN output when the input is shorter than `length`;
otherwise NaN before index `length-1`, the simple mean of the first
`length` inputs at index `length-1`, and the exponential recurrence with
`alpha = 2/(length+1)` from index `length` on. -/
def ema (arr : List (Option ℚ)) (length : ℤ) : List (Option ℚ) :=
  if length ≤ 1 then arr
  else if (arr.length : ℤ) < length then List.replicate arr.length none
  else
    let L := length.toNat
    let alpha : ℚ := 2 / ((length : ℚ) + 1)
    let seed := omean (arr.take L)
    List.replicate (L - 1) none ++ seed :: emaRun alpha seed (arr.drop L)

/-- `macd_cross_under(close)` from lines 49-53 of the source.  Note the
source indexes `macd[1]`, `sig[1]`, `macd[0]`, `sig[0]`: the first two
entries of the arrays, not the last two. -/
def macd_cross_under (close : List ℚ) : Bool :=
  let c := close.map some
  let macd := List.zipWith osub (ema c 12) (ema c 26)
  let sig := ema macd 9
  oge (macd.getD 1 none) (sig.getD 1 none) && olt (macd.getD 0 none) (sig.getD 0 none)

/-- Entry condition of the EMA50-based variants (lines 109 and 123):
`(c1 <= ema50[-2]) and (c0 > ema50[-1])`. -/
def entryEMA50 (close : List ℚ) : Bool :=
  let n := close.length
  let e := ema (close.map some) 50
  ole (some (close.getD (n - 2) 0)) (e.getD (n - 2) none) &&
    ogt (some (close.getD (n - 1) 0)) (e.getD (n - 1) none)

/-- Exit condition of the EMA50+EMAexit variant (line 110):
`(c1 >= ema50[-2]) and (c0 < ema50[-1])`. -/
def exitEMA50 (close : List ℚ) : Bool :=
  let n := close.length
  let e := ema (close.map some) 50
  oge (some (close.getD (n - 2) 0)) (e.getD (n - 2) none) &&
    olt (some (close.getD (n - 1) 0)) (e.getD (n - 1) none)

/-- Entry condition of the EMA100+EMAexit variant (line 117): the cross-up
test against the 100-period EMA. -/
def entryEMA100 (close : List ℚ) : Bool :=
  let n := close.length
  let e := ema (close.map some) 100
  ole (some (close.getD (n - 2) 0)) (e.getD (n - 2) none) &&
    ogt (some (close.getD (n - 1) 0)) (e.getD (n - 1) none)

/-- Exit condition of the EMA100+EMAexit variant (line 118): the cross-down
test against the 50-period EMA (not the 100-period one). -/
def exitEMA100 (close : List ℚ) : Bool :=
  let n := close.length
  let e := ema (close.map some) 50
  oge (some (close.getD (n - 2) 0)) (e.getD (n - 2) none) &&
    olt (some (close.getD (n - 1) 0)) (e.getD (n - 1) none)

/-- Two-digit zero padding used by `strftime` fields. -/
def pad2 (n : ℕ) : String :=
  if n < 10 then "0" ++ toString n else toString n

/-- Gregorian calendar date (year, month, day) of a day count since
1970-01-01, the conversion underlying `datetime.fromtimestamp(..., utc)`. -/
def civilFromDays (z : ℕ) : ℕ × ℕ × ℕ :=
  let z' := z + 719468
  let era := z' / 146097
  let doe := z' % 146097
  let yoe := (doe - doe / 1460 + doe / 36524 - doe / 146096) / 365
  let y := yoe + era * 400
  let doy := doe - (365 * yoe + yoe / 4 - yoe / 100)
  let mp := (5 * doy + 2) / 153
  let d := doy - (153 * mp + 2) / 5 + 1
  let m := if mp < 10 then mp + 3 else mp - 9
  (if m ≤ 2 then y + 1 else y, m, d)

/-- The `when` string of line 129:
`last_bar_closed_utc(ms).strftime("%Y-%m-%d %H:%M UTC")` — the UTC
bar-close instant formatted to minute precision. -/
def fmtWhen (ms : ℕ) : String :=
  let totalMin := ms / 60000
  let days := totalMin / 1440
  let minOfDay := totalMin % 1440
  let ymd := civilFromDays days
  toString ymd.1 ++ "-" ++ pad2 ymd.2.1 ++ "-" ++ pad2 ymd.2.2 ++ " " ++
    pad2 (minOfDay / 60) ++ ":" ++ pad2 (minOfDay % 60) ++ " UTC"

/-- The signal dictionaries built on lines 131 and 133. -/
structure Signal where
  side : String
  when : String
  price : ℚ
deriving DecidableEq, Repr

/-- `signal_for` from lines 99-134, with the retrieved close prices and
close times passed explicitly instead of fetched over HTTP. -/
def signal_for (strategy : String) (close : List ℚ) (tms : List ℕ) : Option Signal :=
  if close.length < 200 then none
  else
    let pair : Option (Bool × Bool) :=
      if strategy = "EMA50+EMAexit" then some (entryEMA50 close, exitEMA50 close)
      else if strategy = "EMA100+EMAexit" then some (entryEMA100 close, exitEMA100 close)
      else if strategy = "EMA50+MACDexit" then some (entryEMA50 close, macd_cross_under close)
      else none
    match pair with
    | none => none
    | some (entry, exitb) =>
      let whenStr := fmtWhen (tms.getD (tms.length - 1) 0)
      let c0 := close.getD (close.length - 1) 0
      if entry then some ⟨"BUY", whenStr, c0⟩
      else if exitb then some ⟨"SELL", whenStr, c0⟩
      else none

/-- The persisted de-duplication state: symbol to stored `"key"` string. -/
abbrev StateMap := List (String × String)

/-- Dictionary read `state.get(sym, {}).get("key")` (lines 147, 149). -/
def stateGet : StateMap → String → Option String
  | [], _ => none
  | (k, v) :: rest, sym => if k = sym then some v else stateGet rest sym

/-- Dictionary write `state[sym] = {"key": key}` (line 151). -/
def stateSet : StateMap → String → String → StateMap
  | [], sym, v => [(sym, v)]
  | (k, w) :: rest, sym, v =>
    if k = sym then (sym, v) :: rest else (k, w) :: stateSet rest sym v

/-- The alert key of line 148: `f-string` concatenation of the signal's
`when` and `side` separated by an underscore. -/
def fingerprint (sig : Signal) : String :=
  sig.when ++ "_" ++ sig.side

/-- The novelty test of line 149: the signal is novel unless the stored
key for the symbol equals the new fingerprint. -/
def isNovel (st : StateMap) (sym : String) (sig : Signal) : Bool :=
  !(stateGet st sym == some (fingerprint sig))

/-- The per-symbol loop of lines 141-152.  `fetch` models `klines`:
`none` is a raised retrieval exception, caught by the bare `except` and
skipped; otherwise the close/time arrays.  Returns the final in-memory
state and the collected `alerts` list in processing order. -/
def processSymbols (strategy : String) (fetch : String → Option (List ℚ × List ℕ)) :
    List String → StateMap → StateMap × List (String × Signal)
  | [], st => (st, [])
  | sym :: rest, st =>
    match fetch sym with
    | none => processSymbols strategy fetch rest st
    | some (close, tms) =>
      match signal_for strategy close tms with
      | none => processSymbols strategy fetch rest st
      | some sig =>
        if isNovel st sym sig then
          let st' := stateSet st sym (fingerprint sig)
          let r := processSymbols strategy fetch rest st'
          (r.1, (sym, sig) :: r.2)
        else processSymbols strategy fetch rest st

/-- Observable outcome of one run of `main` (lines 136-162): the sorted
alert list, whether the Telegram sink was called, the final in-memory
state, and the state written to disk (`none` when `save_state` is never
called). -/
structure RunResult where
  alerts : List (String × Signal)
  notified : Bool
  finalState : StateMap
  saved : Option StateMap
deriving DecidableEq

/-- `main` from lines 136-162, with the symbol universe, initial state and
the per-symbol retrieval passed explicitly: process every symbol, sort the
novel alerts by symbol (line 155), and send one message plus one state
write exactly when the alert list is non-empty (lines 157-162). -/
def runMain (strategy : String) (state0 : StateMap) (symbols : List String)
    (fetch : String → Option (List ℚ × List ℕ)) : RunResult :=
  if ((processSymbols strategy fetch symbols state0).2.mergeSort
      (fun a b => a.1 ≤ b.1)).isEmpty then
    { alerts := (processSymbols strategy fetch symbols state0).2.mergeSort
        (fun a b => a.1 ≤ b.1),
      notified := false,
      finalState := (processSymbols strategy fetch symbols state0).1,
      saved := none }
  else
    { alerts := (processSymbols strategy fetch symbols state0).2.mergeSort
        (fun a b => a.1 ≤ b.1),
      notified := true,
      finalState := (processSymbols strategy fetch symbols state0).1,
      saved := some (processSymbols strategy fetch symbols state0).1 }

/-! ### Structural lemmas about the EMA calculator -/

theorem emaRun_length (a : ℚ) (p : Option ℚ) (l : List (Option ℚ)) :
    (emaRun a p l).length = l.length := by
  induction l generalizing p with
  | nil => rfl
  | cons x xs ih => simp [emaRun, ih]

theorem emaRun_getD (a : ℚ) (p : Option ℚ) (l : List (Option ℚ)) (j : ℕ)
    (hj : j < l.length) :
    (emaRun a p l).getD j none
      = emaStep a ((p :: emaRun a p l).getD j none) (l.getD j none) := by
  induction l generalizing p j with
  | nil => simp at hj
  | cons x xs ih =>
    cases j with
    | zero => simp [emaRun]
    | succ j =>
      simp only [emaRun, List.getD_cons_succ]
      exact ih (emaStep a p x) j (by simpa using hj)

theorem ema_of_le_one (arr : List (Option ℚ)) (len : ℤ) (h : len ≤ 1) :
    ema arr len = arr := by
  simp [ema, h]

theorem ema_of_short (arr : List (Option ℚ)) (len : ℤ) (h1 : ¬len ≤ 1)
    (h2 : (arr.length : ℤ) < len) :
    ema arr len = List.replicate arr.length none := by
  simp [ema, h1, h2]

theorem ema_of_long (arr : List (Option ℚ)) (len : ℤ) (h1 : 2 ≤ len)
    (h2 : len ≤ (arr.length : ℤ)) :
    ema arr len =
      List.replicate (len.toNat - 1) none ++
        omean (arr.take len.toNat) ::
          emaRun (2 / ((len : ℚ) + 1)) (omean (arr.take len.toNat)) (arr.drop len.toNat) := by
  have hn1 : ¬len ≤ 1 := by omega
  have hn2 : ¬((arr.length : ℤ) < len) := by omega
  simp [ema, hn1, hn2]

theorem ema_length (arr : List (Option ℚ)) (len : ℤ) :
    (ema arr len).length = arr.length := by
  by_cases h1 : len ≤ 1
  · rw [ema_of_le_one arr len h1]
  · by_cases h2 : (arr.length : ℤ) < len
    · simp [ema_of_short arr len h1 h2]
    · rw [ema_of_long arr len (by omega) (by omega)]
      simp [emaRun_length]
      omega

theorem ema_getD_front (arr : List (Option ℚ)) (len : ℤ) (h1 : 2 ≤ len)
    (h2 : len ≤ (arr.length : ℤ)) (i : ℕ) (hi : i < len.toNat - 1) :
    (ema arr len).getD i none = none := by
  rw [ema_of_long arr len h1 h2]
  rw [List.getD_append _ _ _ _ (by simpa using hi)]
  simp [List.getD_eq_getElem?_getD, List.getElem?_replicate, hi]

theorem ema_getD_seed (arr : List (Option ℚ)) (len : ℤ) (h1 : 2 ≤ len)
    (h2 : len ≤ (arr.length : ℤ)) :
    (ema arr len).getD (len.toNat - 1) none = omean (arr.take len.toNat) := by
  rw [ema_of_long arr len h1 h2]
  rw [List.getD_append_right _ _ _ _ (by simp)]
  simp

theorem ema_getD_rec (arr : List (Option ℚ)) (len : ℤ) (h1 : 2 ≤ len)
    (h2 : len ≤ (arr.length : ℤ)) (i : ℕ) (hiL : len.toNat ≤ i) (hin : i < arr.length) :
    (ema arr len).getD i none
      = emaStep (2 / ((len : ℚ) + 1)) ((ema arr len).getD (i - 1) none)
          (arr.getD i none) := by
  have hL2 : 2 ≤ len.toNat := by omega
  have hLn : len.toNat ≤ arr.length := by omega
  rw [ema_of_long arr len h1 h2]
  rw [List.getD_append_right _ _ _ _ (by simp; omega),
    List.getD_append_right _ _ _ _ (by simp; omega)]
  simp only [List.length_replicate]
  have e1 : i - (len.toNat - 1) = (i - len.toNat) + 1 := by omega
  have e2 : i - 1 - (len.toNat - 1) = i - len.toNat := by omega
  rw [e1, e2, List.getD_cons_succ]
  rw [emaRun_getD _ _ _ _ (by simp [List.length_drop]; omega)]
  congr 1
  simp only [List.getD_eq_getElem?_getD, List.getElem?_drop]
  congr 2
  omega

/-! ### Lemmas about NaN-aware values -/

theorem osub_none_left (b : Option ℚ) : osub none b = none := by
  cases b <;> rfl

theorem oge_none_left (b : Option ℚ) : oge none b = false := by
  cases b <;> rfl

theorem getD_map_some (l : List ℚ) (i : ℕ) (hi : i < l.length) :
    (l.map some).getD i none = some (l.getD i 0) := by
  simp [List.getD_eq_getElem?_getD, List.getElem?_eq_getElem hi,
    List.getElem?_eq_getElem (show i < (l.map some).length by simpa using hi)]

theorem osum_map_some (l : List ℚ) : osum (l.map some) = some l.sum := by
  induction l with
  | nil => rfl
  | cons x xs ih => simp [osum, ih]

theorem omean_map_some (l : List ℚ) :
    omean (l.map some) = some (l.sum / (l.length : ℚ)) := by
  simp [omean, osum_map_some]

/-! ### The MACD cross-under test of the source is constantly false -/

theorem ema_getElem?_front (arr : List (Option ℚ)) (len : ℤ) (h1 : 2 ≤ len)
    (h2 : len ≤ (arr.length : ℤ)) (i : ℕ) (hi : i < len.toNat - 1) :
    (ema arr len)[i]? = some none := by
  rw [ema_of_long arr len h1 h2]
  rw [List.getElem?_append_left (by simpa using hi)]
  simp [List.getElem?_replicate, hi]

theorem ema_getElem?_one (c : List (Option ℚ)) (len : ℤ) (hlen2 : 2 ≤ c.length)
    (hlen3 : 3 ≤ len) : (ema c len)[1]? = some none := by
  by_cases hs : (c.length : ℤ) < len
  · rw [ema_of_short c len (by omega) hs]
    rw [List.getElem?_replicate, if_pos (by omega)]
  · exact ema_getElem?_front c len (by omega) (by omega) 1 (by omega)

theorem macd_getD_one_none (close : List ℚ) :
    (List.zipWith osub (ema (close.map some) 12) (ema (close.map some) 26)).getD 1 none
      = none := by
  set c := close.map some with hc
  have hlen : c.length = close.length := by simp [hc]
  rw [List.getD_eq_getElem?_getD, List.getElem?_zipWith]
  by_cases h2 : close.length < 2
  · have h1 : (ema c 12)[1]? = none := by
      rw [List.getElem?_eq_none]
      simp [ema_length, hlen]; omega
    rw [h1]
    cases (ema c 26)[1]? <;> rfl
  · rw [ema_getElem?_one c 12 (by omega) (by norm_num),
      ema_getElem?_one c 26 (by omega) (by norm_num)]
    simp [osub_none_left]

theorem macd_cross_under_false (close : List ℚ) : macd_cross_under close = false := by
  unfold macd_cross_under
  simp only [macd_getD_one_none close, oge_none_left, Bool.false_and]

/-! ### Lemmas about the de-duplication state -/

theorem stateGet_stateSet_self (st : StateMap) (sym v : String) :
    stateGet (stateSet st sym v) sym = some v := by
  induction st with
  | nil => simp [stateSet, stateGet]
  | cons kv rest ih =>
    by_cases h : kv.1 = sym
    · simp [stateSet, stateGet, h]
    · simp [stateSet, stateGet, h, ih]

theorem stateGet_stateSet_ne (st : StateMap) (k sym v : String) (h : k ≠ sym) :
    stateGet (stateSet st k v) sym = stateGet st sym := by
  induction st with
  | nil => simp [stateSet, stateGet, h]
  | cons kv rest ih =>
    by_cases hk : kv.1 = k
    · simp [stateSet, stateGet, hk, h, ih]
    · by_cases hs : kv.1 = sym
      · simp [stateSet, stateGet, hk, hs, Ne.symm h]
      · simp [stateSet, stateGet, hk, hs, ih]

/-! ### Lemmas about the evaluator and the per-symbol loop -/

theorem signal_for_of_short (strategy : String) (close : List ℚ) (tms : List ℕ)
    (h : close.length < 200) : signal_for strategy close tms = none := by
  simp [signal_for, h]

theorem signal_for_unknown (strategy : String) (close : List ℚ) (tms : List ℕ)
    (h1 : strategy ≠ "EMA50+EMAexit") (h2 : strategy ≠ "EMA100+EMAexit")
    (h3 : strategy ≠ "EMA50+MACDexit") : signal_for strategy close tms = none := by
  simp [signal_for, h1, h2, h3]

theorem processSymbols_skip (strategy : String) (fetch : String → Option (List ℚ × List ℕ))
    (sym : String)
    (hskip : ∀ close tms, fetch sym = some (close, tms) → signal_for strategy close tms = none)
    (syms : List String) :
    ∀ st : StateMap,
      stateGet (processSymbols strategy fetch syms st).1 sym = stateGet st sym ∧
      ∀ p ∈ (processSymbols strategy fetch syms st).2, p.1 ≠ sym := by
  induction syms with
  | nil => intro st; exact ⟨rfl, by simp [processSymbols]⟩
  | cons h rest ih =>
    intro st
    cases hf : fetch h with
    | none => simpa [processSymbols, hf] using ih st
    | some pr =>
      obtain ⟨cl, t⟩ := pr
      by_cases hh : h = sym
      · subst hh
        have hsig : signal_for strategy cl t = none := hskip cl t hf
        simpa [processSymbols, hf, hsig] using ih st
      · cases hsig : signal_for strategy cl t with
        | none => simpa [processSymbols, hf, hsig] using ih st
        | some sig =>
          by_cases hn : isNovel st h sig
          · have ihs := ih (stateSet st h (fingerprint sig))
            refine ⟨?_, ?_⟩
            · rw [show (processSymbols strategy fetch (h :: rest) st).1
                  = (processSymbols strategy fetch rest (stateSet st h (fingerprint sig))).1 by
                simp [processSymbols, hf, hsig, hn]]
              rw [ihs.1, stateGet_stateSet_ne st h sym (fingerprint sig) hh]
            · intro p hp
              rw [show (processSymbols strategy fetch (h :: rest) st).2
                  = (h, sig) :: (processSymbols strategy fetch rest
                      (stateSet st h (fingerprint sig))).2 by
                simp [processSymbols, hf, hsig, hn]] at hp
              rcases List.mem_cons.mp hp with hp | hp
              · rw [hp]; exact hh
              · exact ihs.2 p hp
          · simpa [processSymbols, hf, hsig, hn] using ih st

theorem processSymbols_filter_fault (strategy : String)
    (fetch : String → Option (List ℚ × List ℕ)) (sym : String) (hf : fetch sym = none)
    (syms : List String) :
    ∀ st : StateMap,
      processSymbols strategy fetch syms st
        = processSymbols strategy fetch (syms.filter (fun s => !(s == sym))) st := by
  induction syms with
  | nil => intro st; rfl
  | cons h rest ih =>
    intro st
    by_cases hh : h = sym
    · subst hh
      simp only [List.filter_cons, beq_self_eq_true, Bool.not_true, if_neg Bool.false_ne_true]
      simp [processSymbols, hf, ih st]
    · have hkeep : (!(h == sym)) = true := by simp [hh]
      simp only [List.filter_cons, hkeep, if_pos]
      cases hfh : fetch h with
      | none => simp [processSymbols, hfh, ih st]
      | some pr =>
        obtain ⟨cl, t⟩ := pr
        cases hsig : signal_for strategy cl t with
        | none => simp [processSymbols, hfh, hsig, ih st]
        | some sig =>
          by_cases hn : isNovel st h sig
          · simp [processSymbols, hfh, hsig, hn, ih (stateSet st h (fingerprint sig))]
          · simp [processSymbols, hfh, hsig, hn, ih st]

theorem processSymbols_unknown (strategy : String)
    (fetch : String → Option (List ℚ × List ℕ))
    (hnone : ∀ close tms, signal_for strategy close tms = none) (syms : List String) :
    ∀ st : StateMap, processSymbols strategy fetch syms st = (st, []) := by
  induction syms with
  | nil => intro st; rfl
  | cons h rest ih =>
    intro st
    cases hfh : fetch h with
    | none => simp [processSymbols, hfh, ih st]
    | some pr =>
      obtain ⟨cl, t⟩ := pr
      simp [processSymbols, hfh, hnone cl t, ih st]

/-! ### Unfolding lemmas for the orchestrator -/

theorem runMain_alerts (strategy : String) (st0 : StateMap) (symbols : List String)
    (fetch : String → Option (List ℚ × List ℕ)) :
    (runMain strategy st0 symbols fetch).alerts
      = (processSymbols strategy fetch symbols st0).2.mergeSort (fun a b => a.1 ≤ b.1) := by
  unfold runMain
  split <;> rfl

theorem runMain_finalState (strategy : String) (st0 : StateMap) (symbols : List String)
    (fetch : String → Option (List ℚ × List ℕ)) :
    (runMain strategy st0 symbols fetch).finalState
      = (processSymbols strategy fetch symbols st0).1 := by
  unfold runMain
  split <;> rfl

theorem runMain_notified (strategy : String) (st0 : StateMap) (symbols : List String)
    (fetch : String → Option (List ℚ × List ℕ)) :
    (runMain strategy st0 symbols fetch).notified
      = !((processSymbols strategy fetch symbols st0).2.mergeSort
          (fun a b => a.1 ≤ b.1)).isEmpty := by
  unfold runMain
  split <;> simp_all

theorem runMain_saved (strategy : String) (st0 : StateMap) (symbols : List String)
    (fetch : String → Option (List ℚ × List ℕ)) :
    (runMain strategy st0 symbols fetch).saved
      = if ((processSymbols strategy fetch symbols st0).2.mergeSort
            (fun a b => a.1 ≤ b.1)).isEmpty
        then none else some (processSymbols strategy fetch symbols st0).1 := by
  unfold runMain
  split <;> simp_all

/-! ### Claim theorems -/

/-- C1: the EMA calculator equals the spec's reference definition: for every
input series and integer length, `length ≤ 1` gives the identity; a series
shorter than `length` gives an all-undefined output; otherwise the output has
the input's length, index `length-1` carries the arithmetic mean of the first
`length` inputs, indices below `length-1` are undefined, and from index
`length` on `out[i] = alpha*series[i] + (1-alpha)*out[i-1]` with
`alpha = 2/(length+1)`. -/
theorem ema_matches_reference (series : List ℚ) (length : ℤ) :
    (length ≤ 1 → ema (series.map some) length = series.map some) ∧
    ((series.length : ℤ) < length → ∀ x ∈ ema (series.map some) length, x = none) ∧
    (2 ≤ length → length ≤ (series.length : ℤ) →
      (ema (series.map some) length).length = series.length ∧
      (ema (series.map some) length).getD (length.toNat - 1) none
        = some ((series.take length.toNat).sum / (length : ℚ)) ∧
      (∀ i, i < length.toNat - 1 → (ema (series.map some) length).getD i none = none) ∧
      (∀ i, length.toNat ≤ i → i < series.length → ∀ p,
        (ema (series.map some) length).getD (i - 1) none = some p →
        (ema (series.map some) length).getD i none
          = some (2 / ((length : ℚ) + 1) * series.getD i 0
              + (1 - 2 / ((length : ℚ) + 1)) * p))) := by
  refine ⟨fun h => ema_of_le_one _ _ h, ?_, ?_⟩
  · intro hshort x hx
    by_cases h1 : length ≤ 1
    · have h0 : series.length = 0 := by omega
      have hnil : series = [] := List.length_eq_zero.mp h0
      subst hnil
      simp [ema_of_le_one _ _ h1] at hx
    · rw [ema_of_short _ _ h1 (by simpa using hshort)] at hx
      exact List.eq_of_mem_replicate hx
  · intro h1 h2
    have h2' : length ≤ ((series.map some).length : ℤ) := by simpa using h2
    refine ⟨by simpa using ema_length (series.map some) length, ?_, ?_, ?_⟩
    · rw [ema_getD_seed _ _ h1 h2', ← List.map_take, omean_map_some]
      have hL : (series.take length.toNat).length = length.toNat := by
        rw [List.length_take]; omega
      have hcast : ((length.toNat : ℕ) : ℚ) = (length : ℚ) := by
        exact_mod_cast Int.toNat_of_nonneg (by omega : (0 : ℤ) ≤ length)
      rw [hL, hcast]
    · intro i hi
      exact ema_getD_front _ _ h1 h2' i hi
    · intro i hiL hin p hp
      have hrec := ema_getD_rec (series.map some) length h1 h2' i hiL (by simpa using hin)
      rw [getD_map_some series i hin, hp] at hrec
      simpa [emaStep] using hrec

unseal Rat.mul Rat.inv Rat.add Rat.sub in
/-- Witness for C1: all branches of the reference definition checked at
concrete inputs, with every hypothesis discharged by evaluation. -/
theorem ema_matches_reference_checks :
    ema ([(1 : ℚ), 2].map some) 1 = [(1 : ℚ), 2].map some ∧
    (ema ([(1 : ℚ), 2].map some) 5).getD 0 none = none ∧
    (ema ([(1 : ℚ), 2, 3, 4].map some) 2).getD 1 none = some (3 / 2) ∧
    (ema ([(1 : ℚ), 2, 3, 4].map some) 2).getD 0 none = none ∧
    (ema ([(1 : ℚ), 2, 3, 4].map some) 2).getD 2 none
      = some (2 / ((2 : ℚ) + 1) * 3 + (1 - 2 / ((2 : ℚ) + 1)) * (3 / 2)) := by
  refine ⟨(ema_matches_reference [1, 2] 1).1 (by decide),
    (ema_matches_reference [1, 2] 5).2.1 (by decide) _ (by decide), ?_, ?_, ?_⟩
  · have h := ((ema_matches_reference [1, 2, 3, 4] 2).2.2 (by decide) (by decide)).2.1
    rw [(by decide : (2 : ℤ).toNat - 1 = 1)] at h
    rw [h]
    decide
  · exact ((ema_matches_reference [1, 2, 3, 4] 2).2.2 (by decide) (by decide)).2.2.1
      0 (by decide)
  · have h := ((ema_matches_reference [1, 2, 3, 4] 2).2.2 (by decide) (by decide)).2.2.2
      2 (by decide) (by decide) (3 / 2) (by decide)
    rw [h]
    decide

/-- C3 (code bug): the source's cross-under detector reads `macd[1]`,
`sig[1]`, `macd[0]`, `sig[0]` — the first two, always-NaN warm-up entries —
instead of the last two bars, so it returns false on every input and the
EMA50+MACDexit variant can never emit a SELL signal; the spec's
`macd[-2] ≥ sig[-2] ∧ macd[-1] < sig[-1]` behaviour (Scenario D) is
unreachable in the code. -/
theorem macd_exit_never_sells (close : List ℚ) :
    macd_cross_under close = false ∧
    ∀ tms : List ℕ,
      ((signal_for "EMA50+MACDexit" close tms).all (fun s => s.side == "BUY")) = true := by
  refine ⟨macd_cross_under_false close, fun tms => ?_⟩
  by_cases hl : close.length < 200
  · simp [signal_for_of_short _ _ _ hl]
  · by_cases he : entryEMA50 close
    · simp [signal_for, hl, he]
    · simp [signal_for, hl, he, macd_cross_under_false close]

/-- C5: the alert fingerprint is the concatenation of the signal's `when`
and `side` only (price-independent), and a signal is judged novel exactly
when the stored fingerprint for that symbol differs from the new one,
including when no entry exists. -/
theorem fingerprint_dedup_spec :
    (∀ s1 s2 : Signal, s1.when = s2.when → s1.side = s2.side →
      fingerprint s1 = fingerprint s2) ∧
    (∀ (st : StateMap) (sym : String) (sig : Signal),
      isNovel st sym sig = true ↔ ¬stateGet st sym = some (fingerprint sig)) := by
  constructor
  · intro s1 s2 hw hs
    unfold fingerprint
    rw [hw, hs]
  · intro st sym sig
    simp [isNovel]

/-- Witness for C5: equal fingerprints for two signals differing only in
price, and novelty on an empty state. -/
theorem fingerprint_dedup_check :
    fingerprint ⟨"BUY", "2024-01-01 00:00 UTC", 1⟩
      = fingerprint ⟨"BUY", "2024-01-01 00:00 UTC", 99⟩ ∧
    isNovel [] "BTCUSDT" ⟨"BUY", "2024-01-01 00:00 UTC", 1⟩ = true := by
  refine ⟨fingerprint_dedup_spec.1 _ _ rfl rfl, ?_⟩
  exact (fingerprint_dedup_spec.2 [] "BTCUSDT" _).mpr (by decide)

theorem ogt_some_true {x : ℚ} {b : Option ℚ} (h : ogt (some x) b = true) :
    ∃ w, b = some w ∧ w < x := by
  cases b with
  | none => simp [ogt] at h
  | some w => exact ⟨w, rfl, by simpa [ogt] using h⟩

theorem olt_some_true {x : ℚ} {b : Option ℚ} (h : olt (some x) b = true) :
    ∃ w, b = some w ∧ x < w := by
  cases b with
  | none => simp [olt] at h
  | some w => exact ⟨w, rfl, by simpa [olt] using h⟩

theorem ole_some_true {x : ℚ} {b : Option ℚ} (h : ole (some x) b = true) :
    ∃ w, b = some w ∧ x ≤ w := by
  cases b with
  | none => simp [ole] at h
  | some w => exact ⟨w, rfl, by simpa [ole] using h⟩

theorem oge_some_true {x : ℚ} {b : Option ℚ} (h : oge (some x) b = true) :
    ∃ w, b = some w ∧ w ≤ x := by
  cases b with
  | none => simp [oge] at h
  | some w => exact ⟨w, rfl, by simpa [oge] using h⟩

/-- C4: for every strategy variant evaluated on the same ≥200-bar price
history, the entry and exit conditions are never both true.  For the
EMA100+EMAexit variant this rests on the EMA recurrence: the last EMA value
lies strictly between the last close and the previous EMA value, so the
four inequalities are jointly unsatisfiable. -/
theorem entry_exit_mutually_exclusive (close : List ℚ) (h : 200 ≤ close.length) :
    (entryEMA50 close && exitEMA50 close) = false ∧
    (entryEMA100 close && exitEMA100 close) = false ∧
    (entryEMA50 close && macd_cross_under close) = false := by
  refine ⟨?_, ?_, by simp [macd_cross_under_false close]⟩
  · by_contra hc
    rw [Bool.not_eq_false, Bool.and_eq_true] at hc
    obtain ⟨he, hx⟩ := hc
    simp only [entryEMA50, Bool.and_eq_true] at he
    simp only [exitEMA50, Bool.and_eq_true] at hx
    obtain ⟨-, he2⟩ := he
    obtain ⟨-, hx2⟩ := hx
    obtain ⟨w, hw, hlt⟩ := ogt_some_true he2
    obtain ⟨w', hw', hgt⟩ := olt_some_true hx2
    rw [hw] at hw'
    obtain rfl := Option.some.inj hw'
    linarith
  · by_contra hc
    rw [Bool.not_eq_false, Bool.and_eq_true] at hc
    obtain ⟨he, hx⟩ := hc
    simp only [entryEMA100, Bool.and_eq_true] at he
    simp only [exitEMA100, Bool.and_eq_true] at hx
    obtain ⟨he1, he2⟩ := he
    obtain ⟨hx1, hx2⟩ := hx
    obtain ⟨w100, hw100, hc0w100⟩ := ogt_some_true he2
    obtain ⟨w50, hw50, hc0w50⟩ := olt_some_true hx2
    have hr100 := ema_getD_rec (close.map some) 100 (by norm_num)
      (by simp only [List.length_map]; omega) (close.length - 1)
      (by omega) (by simp only [List.length_map]; omega)
    have hr50 := ema_getD_rec (close.map some) 50 (by norm_num)
      (by simp only [List.length_map]; omega) (close.length - 1)
      (by omega) (by simp only [List.length_map]; omega)
    rw [(by omega : close.length - 1 - 1 = close.length - 2)] at hr100 hr50
    rw [getD_map_some close (close.length - 1) (by omega)] at hr100 hr50
    rw [hw100] at hr100
    rw [hw50] at hr50
    cases hp100 : (ema (close.map some) 100).getD (close.length - 2) none with
    | none => rw [hp100] at hr100; simp [emaStep] at hr100
    | some v100 =>
      cases hp50 : (ema (close.map some) 50).getD (close.length - 2) none with
      | none => rw [hp50] at hr50; simp [emaStep] at hr50
      | some v50 =>
        rw [hp100] at hr100
        rw [hp50] at hr50
        simp only [emaStep, Option.some.injEq] at hr100 hr50
        rw [hp100] at he1
        rw [hp50] at hx1
        obtain ⟨v100', hv100', hc1le⟩ := ole_some_true he1
        obtain ⟨v50', hv50', hc1ge⟩ := oge_some_true hx1
        obtain rfl := Option.some.inj hv100'
        obtain rfl := Option.some.inj hv50'
        push_cast at hr100 hr50
        linarith

/-- Witness for C4 at a concrete 200-bar constant price history. -/
theorem entry_exit_mutually_exclusive_check :
    (entryEMA50 (List.replicate 200 (1 : ℚ)) && exitEMA50 (List.replicate 200 (1 : ℚ)))
      = false ∧
    (entryEMA100 (List.replicate 200 (1 : ℚ)) && exitEMA100 (List.replicate 200 (1 : ℚ)))
      = false ∧
    (entryEMA50 (List.replicate 200 (1 : ℚ)) && macd_cross_under (List.replicate 200 (1 : ℚ)))
      = false :=
  entry_exit_mutually_exclusive (List.replicate 200 1)
    (by rw [List.length_replicate])

/-- C2: for every ≥200-bar history the evaluator checks the entry condition
first and on success returns BUY priced at the latest close and stamped with
the latest bar's close time; only if entry fails does it check exit and
return SELL; otherwise no signal.  For the EMA100+EMAexit variant the entry
tests the 100-period EMA while the exit tests the 50-period EMA. -/
theorem evaluator_entry_first (close : List ℚ) (tms : List ℕ) (h : 200 ≤ close.length) :
    (signal_for "EMA50+EMAexit" close tms =
      if entryEMA50 close then
        some ⟨"BUY", fmtWhen (tms.getD (tms.length - 1) 0), close.getD (close.length - 1) 0⟩
      else if exitEMA50 close then
        some ⟨"SELL", fmtWhen (tms.getD (tms.length - 1) 0), close.getD (close.length - 1) 0⟩
      else none) ∧
    (signal_for "EMA100+EMAexit" close tms =
      if entryEMA100 close then
        some ⟨"BUY", fmtWhen (tms.getD (tms.length - 1) 0), close.getD (close.length - 1) 0⟩
      else if exitEMA100 close then
        some ⟨"SELL", fmtWhen (tms.getD (tms.length - 1) 0), close.getD (close.length - 1) 0⟩
      else none) ∧
    (signal_for "EMA50+MACDexit" close tms =
      if entryEMA50 close then
        some ⟨"BUY", fmtWhen (tms.getD (tms.length - 1) 0), close.getD (close.length - 1) 0⟩
      else if macd_cross_under close then
        some ⟨"SELL", fmtWhen (tms.getD (tms.length - 1) 0), close.getD (close.length - 1) 0⟩
      else none) ∧
    (entryEMA100 close =
      (ole (some (close.getD (close.length - 2) 0))
          ((ema (close.map some) 100).getD (close.length - 2) none) &&
        ogt (some (close.getD (close.length - 1) 0))
          ((ema (close.map some) 100).getD (close.length - 1) none))) ∧
    (exitEMA100 close =
      (oge (some (close.getD (close.length - 2) 0))
          ((ema (close.map some) 50).getD (close.length - 2) none) &&
        olt (some (close.getD (close.length - 1) 0))
          ((ema (close.map some) 50).getD (close.length - 1) none))) := by
  have hl : ¬close.length < 200 := by omega
  refine ⟨?_, ?_, ?_, rfl, rfl⟩ <;> simp [signal_for, hl]

/-- Witness for C2 at a concrete 200-bar history. -/
theorem evaluator_entry_first_check :
    signal_for "EMA50+EMAexit" (List.replicate 200 (1 : ℚ)) [0] =
      if entryEMA50 (List.replicate 200 (1 : ℚ)) then
        some ⟨"BUY", fmtWhen (([0] : List ℕ).getD (([0] : List ℕ).length - 1) 0),
          (List.replicate 200 (1 : ℚ)).getD ((List.replicate 200 (1 : ℚ)).length - 1) 0⟩
      else if exitEMA50 (List.replicate 200 (1 : ℚ)) then
        some ⟨"SELL", fmtWhen (([0] : List ℕ).getD (([0] : List ℕ).length - 1) 0),
          (List.replicate 200 (1 : ℚ)).getD ((List.replicate 200 (1 : ℚ)).length - 1) 0⟩
      else none :=
  (evaluator_entry_first (List.replicate 200 1) [0] (by rw [List.length_replicate])).1

/-- C6: with unchanged price history, the state persisted by a first (novel)
run makes the second run compute the identical signal but judge it
non-novel, so the second run emits no alert, no notification and no state
write for that symbol. -/
theorem dedup_idempotent (strategy sym : String) (close : List ℚ) (tms : List ℕ)
    (st0 : StateMap) (sig : Signal)
    (hsig : signal_for strategy close tms = some sig)
    (hnov : ¬stateGet st0 sym = some (fingerprint sig)) :
    runMain strategy st0 [sym] (fun _ => some (close, tms))
      = ⟨[(sym, sig)], true, stateSet st0 sym (fingerprint sig),
          some (stateSet st0 sym (fingerprint sig))⟩ ∧
    runMain strategy (stateSet st0 sym (fingerprint sig)) [sym]
        (fun _ => some (close, tms))
      = ⟨[], false, stateSet st0 sym (fingerprint sig), none⟩ := by
  have hn1 : isNovel st0 sym sig = true := by simp [isNovel, hnov]
  have hn2 : isNovel (stateSet st0 sym (fingerprint sig)) sym sig = false := by
    simp [isNovel, stateGet_stateSet_self]
  constructor
  · have hp : processSymbols strategy (fun _ => some (close, tms)) [sym] st0
        = (stateSet st0 sym (fingerprint sig), [(sym, sig)]) := by
      simp [processSymbols, hsig, hn1]
    unfold runMain
    rw [hp]
    simp
  · have hp : processSymbols strategy (fun _ => some (close, tms)) [sym]
        (stateSet st0 sym (fingerprint sig))
        = (stateSet st0 sym (fingerprint sig), []) := by
      simp [processSymbols, hsig, hn2]
    unfold runMain
    rw [hp]
    simp

set_option maxRecDepth 100000 in
unseal Rat.mul Rat.inv Rat.add Rat.sub in
/-- Witness for C6: a concrete first run that alerts and persists, and the
second run over the same data that stays silent. -/
theorem dedup_idempotent_check :
    runMain "EMA50+EMAexit" [] ["BTCUSDT"]
        (fun _ => some (List.replicate 199 (0 : ℚ) ++ [1], [0]))
      = ⟨[("BTCUSDT", ⟨"BUY", "1970-01-01 00:00 UTC", 1⟩)], true,
          stateSet [] "BTCUSDT" (fingerprint ⟨"BUY", "1970-01-01 00:00 UTC", 1⟩),
          some (stateSet [] "BTCUSDT" (fingerprint ⟨"BUY", "1970-01-01 00:00 UTC", 1⟩))⟩ ∧
    runMain "EMA50+EMAexit"
        (stateSet [] "BTCUSDT" (fingerprint ⟨"BUY", "1970-01-01 00:00 UTC", 1⟩))
        ["BTCUSDT"] (fun _ => some (List.replicate 199 (0 : ℚ) ++ [1], [0]))
      = ⟨[], false,
          stateSet [] "BTCUSDT" (fingerprint ⟨"BUY", "1970-01-01 00:00 UTC", 1⟩), none⟩ :=
  dedup_idempotent "EMA50+EMAexit" "BTCUSDT" (List.replicate 199 (0 : ℚ) ++ [1]) [0] []
    ⟨"BUY", "1970-01-01 00:00 UTC", 1⟩ (by decide) (by decide)

/-- C7: a symbol whose retrieved history has fewer than 200 bars abstains
rather than errors: the evaluator returns no signal, the run produces no
alert for that symbol, and its de-duplication state entry is unchanged. -/
theorem insufficient_history_abstains (strategy : String) (st0 : StateMap)
    (symbols : List String) (fetch : String → Option (List ℚ × List ℕ))
    (sym : String) (close : List ℚ) (tms : List ℕ)
    (hf : fetch sym = some (close, tms)) (hlen : close.length < 200) :
    signal_for strategy close tms = none ∧
    (∀ s, (sym, s) ∉ (runMain strategy st0 symbols fetch).alerts) ∧
    stateGet (runMain strategy st0 symbols fetch).finalState sym = stateGet st0 sym := by
  have hskip : ∀ cl t, fetch sym = some (cl, t) → signal_for strategy cl t = none := by
    intro cl t hft
    rw [hf, Option.some.injEq, Prod.mk.injEq] at hft
    obtain ⟨h1, h2⟩ := hft
    rw [← h1, ← h2]
    exact signal_for_of_short _ _ _ hlen
  obtain ⟨hstate, halerts⟩ := processSymbols_skip strategy fetch sym hskip symbols st0
  refine ⟨hskip close tms hf, ?_, ?_⟩
  · intro s hs
    rw [runMain_alerts, List.mem_mergeSort] at hs
    exact halerts (sym, s) hs rfl
  · rw [runMain_finalState]
    exact hstate

/-- Witness for C7: a one-symbol run over an empty history leaves the state
entry alone and produces no alert. -/
theorem insufficient_history_abstains_check :
    signal_for "EMA50+EMAexit" [] [] = none ∧
    ("AAAUSDT", (⟨"BUY", "1970-01-01 00:00 UTC", 0⟩ : Signal))
      ∉ (runMain "EMA50+EMAexit" [("AAAUSDT", "k")] ["AAAUSDT"]
          (fun _ => some ([], []))).alerts ∧
    stateGet (runMain "EMA50+EMAexit" [("AAAUSDT", "k")] ["AAAUSDT"]
        (fun _ => some ([], []))).finalState "AAAUSDT"
      = stateGet [("AAAUSDT", "k")] "AAAUSDT" := by
  obtain ⟨h1, h2, h3⟩ := insufficient_history_abstains "EMA50+EMAexit" [("AAAUSDT", "k")]
    ["AAAUSDT"] (fun _ => some ([], [])) "AAAUSDT" [] [] rfl (by decide)
  exact ⟨h1, h2 _, h3⟩

/-- C8: every run sorts the novel alerts lexicographically by symbol (losing
none of them), notifies exactly when the sorted list is non-empty, and
writes the state exactly when it notified. -/
theorem run_sort_notify_persist (strategy : String) (st0 : StateMap)
    (symbols : List String) (fetch : String → Option (List ℚ × List ℕ)) :
    List.Pairwise (fun a b : String × Signal => a.1 ≤ b.1)
      (runMain strategy st0 symbols fetch).alerts ∧
    (runMain strategy st0 symbols fetch).alerts.Perm
      (processSymbols strategy fetch symbols st0).2 ∧
    ((runMain strategy st0 symbols fetch).notified = true
      ↔ (runMain strategy st0 symbols fetch).alerts ≠ []) ∧
    (runMain strategy st0 symbols fetch).saved
      = (if (runMain strategy st0 symbols fetch).notified
          then some (runMain strategy st0 symbols fetch).finalState else none) := by
  refine ⟨?_, ?_, ?_, ?_⟩
  · rw [runMain_alerts]
    refine (List.sorted_mergeSort ?_ ?_
      (processSymbols strategy fetch symbols st0).2).imp ?_
    · intro a b c h1 h2
      simp only [decide_eq_true_eq] at h1 h2 ⊢
      exact le_trans h1 h2
    · intro a b
      simp only [Bool.or_eq_true, decide_eq_true_eq]
      exact le_total a.1 b.1
    · intro a b hab
      simpa using hab
  · rw [runMain_alerts]
    exact List.mergeSort_perm _ _
  · rw [runMain_notified, runMain_alerts]
    simp [List.isEmpty_iff]
  · rw [runMain_saved, runMain_notified, runMain_finalState]
    by_cases hE : ((processSymbols strategy fetch symbols st0).2.mergeSort
        (fun a b => a.1 ≤ b.1)).isEmpty
    · simp [hE]
    · simp only [Bool.not_eq_true] at hE
      simp [hE]

/-- C9: a retrieval fault for one symbol only removes that symbol from the
run: the whole run result equals the run over the remaining symbols, the
faulty symbol gets no alert, and its state entry is untouched. -/
theorem fault_isolated (strategy : String) (st0 : StateMap) (symbols : List String)
    (fetch : String → Option (List ℚ × List ℕ)) (sym : String) (hf : fetch sym = none) :
    runMain strategy st0 symbols fetch
      = runMain strategy st0 (symbols.filter (fun s => !(s == sym))) fetch ∧
    (∀ s, (sym, s) ∉ (runMain strategy st0 symbols fetch).alerts) ∧
    stateGet (runMain strategy st0 symbols fetch).finalState sym = stateGet st0 sym := by
  have hskip : ∀ cl t, fetch sym = some (cl, t) → signal_for strategy cl t = none := by
    intro cl t hft
    rw [hf] at hft
    exact Option.noConfusion hft
  obtain ⟨hstate, halerts⟩ := processSymbols_skip strategy fetch sym hskip symbols st0
  refine ⟨?_, ?_, ?_⟩
  · unfold runMain
    rw [← processSymbols_filter_fault strategy fetch sym hf symbols st0]
  · intro s hs
    rw [runMain_alerts, List.mem_mergeSort] at hs
    exact halerts (sym, s) hs rfl
  · rw [runMain_finalState]
    exact hstate

/-- Witness for C9: a two-symbol batch with a faulting fetch. -/
theorem fault_isolated_check :
    runMain "EMA50+EMAexit" [] ["AAAUSDT", "BBBUSDT"] (fun _ => none)
      = runMain "EMA50+EMAexit" []
          (["AAAUSDT", "BBBUSDT"].filter (fun s => !(s == "AAAUSDT"))) (fun _ => none) ∧
    ("AAAUSDT", (⟨"BUY", "1970-01-01 00:00 UTC", 0⟩ : Signal))
      ∉ (runMain "EMA50+EMAexit" [] ["AAAUSDT", "BBBUSDT"] (fun _ => none)).alerts ∧
    stateGet (runMain "EMA50+EMAexit" [] ["AAAUSDT", "BBBUSDT"]
        (fun _ => none)).finalState "AAAUSDT" = stateGet [] "AAAUSDT" := by
  obtain ⟨h1, h2, h3⟩ := fault_isolated "EMA50+EMAexit" [] ["AAAUSDT", "BBBUSDT"]
    (fun _ => none) "AAAUSDT" rfl
  exact ⟨h1, h2 _, h3⟩

/-- C10: an unknown strategy name yields no signal for any history, and a
run configured with it produces no alerts, no notification and no state
write, leaving the initial state untouched. -/
theorem unknown_strategy_silent (strategy : String)
    (h1 : strategy ≠ "EMA50+EMAexit") (h2 : strategy ≠ "EMA100+EMAexit")
    (h3 : strategy ≠ "EMA50+MACDexit") :
    (∀ close tms, signal_for strategy close tms = none) ∧
    ∀ (st0 : StateMap) (symbols : List String)
      (fetch : String → Option (List ℚ × List ℕ)),
      runMain strategy st0 symbols fetch = ⟨[], false, st0, none⟩ := by
  have hnone : ∀ close tms, signal_for strategy close tms = none := fun close tms =>
    signal_for_unknown strategy close tms h1 h2 h3
  refine ⟨hnone, fun st0 symbols fetch => ?_⟩
  have hp := processSymbols_unknown strategy fetch hnone symbols st0
  unfold runMain
  rw [hp]
  simp

/-- Witness for C10 with a concrete unknown variant name over a 200-bar
history. -/
theorem unknown_strategy_silent_check :
    signal_for "FOO" (List.replicate 200 (0 : ℚ)) [0] = none ∧
    runMain "FOO" [("AAAUSDT", "k")] ["AAAUSDT"]
        (fun _ => some (List.replicate 200 (0 : ℚ), [0]))
      = ⟨[], false, [("AAAUSDT", "k")], none⟩ := by
  obtain ⟨h1, h2⟩ := unknown_strategy_silent "FOO" (by decide) (by decide) (by decide)
  exact ⟨h1 _ _, h2 _ _ _⟩

end UsdtBot
